import Mathlib

/-!
Verification of the framebuffer compositor / blitter of the flappy-bird
firmware (src/display.rs, src/lcd.rs, src/config.rs, src/sdram.rs).

The drawing primitives are shallowly embedded: the ARGB8888 framebuffer is a
function from word index to pixel value, each drawing routine is translated
into the list of (index, value) writes its loops perform (in loop order),
applied left to right.  u16 arithmetic that can wrap in the source is made
explicit with `wrap16`; fallible conversions (`try_into().expect(..)`)
return `Option`, `none` standing for the panic.
-/

namespace FlappyLcd

/-! ### Constants from src/config.rs, src/lcd.rs, src/sdram.rs, src/display.rs -/

def GAME_WIDTH : ℕ := 320
def GAME_HEIGHT : ℕ := 240
def LCD_WIDTH : ℕ := 240
def LCD_HEIGHT : ℕ := 320
def DISPLAY_WIDTH : ℕ := 240
def DISPLAY_HEIGHT : ℕ := 320

def HSYNC : ℕ := 10
def HBP : ℕ := 20
def VSYNC : ℕ := 2
def VBP : ℕ := 2

def SDRAM_BASE : ℕ := 0xD0000000
def LAYER1_BASE : ℕ := SDRAM_BASE
def LAYER1_BPP : ℕ := 4
def LAYER1_SIZE : ℕ := LCD_WIDTH * LCD_HEIGHT * LAYER1_BPP
def LAYER2_BASE : ℕ := LAYER1_BASE + LAYER1_SIZE
def LAYER2_SIDE : ℕ := 64
def LAYER2_W : ℕ := LAYER2_SIDE
def LAYER2_H : ℕ := LAYER2_SIDE
def LAYER2_BPP : ℕ := 4
def LAYER2_SIZE : ℕ := LAYER2_W * LAYER2_H * LAYER2_BPP
def LAYER1_BASE_B : ℕ := LAYER2_BASE + LAYER2_SIZE

/-- Wrapping 16-bit arithmetic (u16 overflow semantics of the source). -/
def wrap16 (n : ℕ) : ℕ := n % 65536

/-! ### Data model: framebuffer, transforms, fonts -/

/-- The Layer-1 framebuffer viewed as ARGB8888 words indexed by
`lcd_y * LCD_WIDTH + lcd_x`. -/
def FB : Type := ℕ → ℕ

/-- A single store into the framebuffer slice. -/
def fbWrite (fb : FB) (i v : ℕ) : FB := fun j => if j = i then v else fb j

/-- Apply a list of (index, value) stores left to right, in program order. -/
def applyWrites (fb : FB) (ws : List (ℕ × ℕ)) : FB :=
  ws.foldl (fun fb wv => fbWrite fb wv.1 wv.2) fb

/-- Image rotation options, src/display.rs `ImageRotation`. -/
inductive ImageRotation where
  | noRot
  | clockwise90
  | counterClockwise90
  | rotate180
deriving DecidableEq

/-- Image flip options, src/display.rs `ImageFlip`. -/
structure ImageFlip where
  horizontal : Bool
  vertical : Bool
deriving DecidableEq

/-- Rotation plus flip, src/display.rs `ImageTransform`. -/
structure ImageTransform where
  rotation : ImageRotation
  flip : ImageFlip
deriving DecidableEq

def ImageTransform.NONE : ImageTransform := ⟨.noRot, false, false⟩
def ImageTransform.CW90 : ImageTransform := ⟨.clockwise90, false, false⟩
def ImageTransform.CCW90 : ImageTransform := ⟨.counterClockwise90, false, false⟩

/-- Source pixel index computed by `draw_image_to_framebuffer` for destination
cell (row, col): rotation first, then flips, then `img_row * w + img_col`
(src/display.rs lines 426-440). -/
def srcIndex (t : ImageTransform) (w h row col : ℕ) : ℕ :=
  let rc : ℕ × ℕ :=
    match t.rotation with
    | .noRot => (row, col)
    | .clockwise90 => (w - 1 - col, row)
    | .counterClockwise90 => (col, h - 1 - row)
    | .rotate180 => (h - 1 - row, w - 1 - col)
  let ic := if t.flip.horizontal then w - 1 - rc.2 else rc.2
  let ir := if t.flip.vertical then h - 1 - rc.1 else rc.1
  ir * w + ic

/-- RGB565 to ARGB8888 conversion as performed in `fill_rect`,
`draw_image_to_framebuffer` and `write_char` (src/display.rs): unpack 5-6-5
channels, rescale by `* 255 / max`, output `0xFF000000 | r8<<16 | g8<<8 | b8`. -/
def rgb565_to_argb8888 (color : ℕ) : ℕ :=
  let r := (color >>> 11) &&& 0x1F
  let g := (color >>> 5) &&& 0x3F
  let b := color &&& 0x1F
  let r8 := r * 255 / 31
  let g8 := g * 255 / 63
  let b8 := b * 255 / 31
  0xFF000000 ||| (r8 <<< 16) ||| (g8 <<< 8) ||| b8

/-- Fixed game-space to panel-space remap used by every blit: `lcd_x = game_y`,
`lcd_y = GAME_WIDTH - 1 - game_x`, framebuffer word index
`lcd_y * LCD_WIDTH + lcd_x`. -/
def fbIndex (gx gy : ℕ) : ℕ := (GAME_WIDTH - 1 - gx) * LCD_WIDTH + gy

/-- Per-pixel bounds checks and remap shared by `fill_rect`,
`draw_image_to_framebuffer` and `write_char` (the two `continue` guards and the
`fb_index` computation): `none` when the pixel is skipped. -/
def gamePixelIndex (gx gy : ℕ) : Option ℕ :=
  if GAME_WIDTH ≤ gx ∨ GAME_HEIGHT ≤ gy then none
  else
    let lcdX := gy
    let lcdY := GAME_WIDTH - 1 - gx
    if LCD_WIDTH ≤ lcdX ∨ LCD_HEIGHT ≤ lcdY then none
    else some (lcdY * LCD_WIDTH + lcdX)

/-- Iteration space of the nested `for row in 0..h { for col in 0..w }` loops,
in program order. -/
def rowColPairs (h w : ℕ) : List (ℕ × ℕ) :=
  (List.range h).flatMap fun row => (List.range w).map fun col => (row, col)

/-! ### fill_rect (src/display.rs lines 611-683) -/

/-- Writes performed by the pixel loop of `fill_rect` for the (already
clipped) extents `w`, `h`. -/
def fillRectWrites (x w y h color : ℕ) : List (ℕ × ℕ) :=
  let argb := rgb565_to_argb8888 color
  (rowColPairs h w).filterMap fun rc =>
    (gamePixelIndex (x + rc.2) (y + rc.1)).map fun i => (i, argb)

/-- `Display::fill_rect`: early return when `x`/`y` is out of the game bounds,
clip `w`/`h` using the u16 test `(x + w - 1) >= bound`, then run the pixel
loop. -/
def fill_rect (fb : FB) (x w y h color : ℕ) : FB :=
  if GAME_WIDTH ≤ x ∨ GAME_HEIGHT ≤ y then fb
  else
    let w := if GAME_WIDTH ≤ wrap16 (x + w + 65535) then GAME_WIDTH - x else w
    let h := if GAME_HEIGHT ≤ wrap16 (y + h + 65535) then GAME_HEIGHT - y else h
    applyWrites fb (fillRectWrites x w y h color)

/-! ### draw_image_to_framebuffer / draw_image_transformed (lines 306-468) -/

/-- Writes performed by `draw_image_to_framebuffer`: per destination cell,
bounds checks and remap, then the transformed source index; cells whose source
index falls outside `image_data` are skipped. -/
def drawImageWrites (x y w h : ℕ) (image_data : List ℕ) (t : ImageTransform) :
    List (ℕ × ℕ) :=
  (rowColPairs h w).filterMap fun rc =>
    (gamePixelIndex (x + rc.2) (y + rc.1)).bind fun i =>
      let idx := srcIndex t w h rc.1 rc.2
      if idx < image_data.length then
        some (i, rgb565_to_argb8888 (image_data.getD idx 0))
      else none

/-- `Display::draw_image_to_framebuffer`. -/
def draw_image_to_framebuffer (fb : FB) (x y w h : ℕ) (image_data : List ℕ)
    (t : ImageTransform) : FB :=
  applyWrites fb (drawImageWrites x y w h image_data t)

/-- `i32 -> u16` conversion by `try_into().expect(..)`: `none` is the panic. -/
def tryIntoU16ofInt (n : ℤ) : Option ℕ :=
  if 0 ≤ n ∧ n < 65536 then some n.toNat else none

/-- `u32 -> u16` conversion by `try_into().expect(..)`: `none` is the panic. -/
def tryIntoU16ofNat (n : ℕ) : Option ℕ :=
  if n < 65536 then some n else none

/-- `Display::draw_image_transformed`: u16 conversions (panicking on
failure), bounds check against `DISPLAY_WIDTH`/`DISPLAY_HEIGHT`, u16 clipping,
then the framebuffer blit. -/
def draw_image_transformed (fb : FB) (x : ℤ) (w : ℕ) (y : ℤ) (h : ℕ)
    (image_data : List ℕ) (t : ImageTransform) : Option FB :=
  (tryIntoU16ofInt x).bind fun x =>
  (tryIntoU16ofInt y).bind fun y =>
  (tryIntoU16ofNat w).bind fun w =>
  (tryIntoU16ofNat h).bind fun h =>
  if DISPLAY_WIDTH ≤ x ∨ DISPLAY_HEIGHT ≤ y then some fb
  else
    let w := if DISPLAY_WIDTH ≤ wrap16 (x + w + 65535) then DISPLAY_WIDTH - x else w
    let h := if DISPLAY_HEIGHT ≤ wrap16 (y + h + 65535) then DISPLAY_HEIGHT - y else h
    some (draw_image_to_framebuffer fb x y w h image_data t)

/-- `Display::draw_rect_angle`: u16 conversions (panicking on failure), then
`fill_rect`. -/
def draw_rect_angle (fb : FB) (x : ℤ) (w : ℕ) (y : ℤ) (h : ℕ) (color : ℕ) :
    Option FB :=
  (tryIntoU16ofInt x).bind fun x =>
  (tryIntoU16ofInt y).bind fun y =>
  (tryIntoU16ofNat w).bind fun w =>
  (tryIntoU16ofNat h).bind fun h =>
  some (fill_rect fb x w y h color)

/-! ### write_char / write_string (src/display.rs lines 486-595) -/

/-- Bitmap font: fixed cell size plus one row word per glyph row
(`crate::assets::fonts::Font`; the asset tables themselves live outside
src/, so the font is a parameter here). -/
structure Font where
  width : ℕ
  height : ℕ
  data : List ℕ

/-- Row word used by `Display::write_char` for glyph row `i`:
`font.data[(ch - 32) * font.height + i]` (u8 wrapping subtraction, modelled as
`(ch + 224) % 256`) when `32 <= ch <= 126` and the row index is in range, and
the solid fallback `0xFFFF` otherwise. -/
def charRowWord (ch : ℕ) (font : Font) (i : ℕ) : ℕ :=
  let charIndex := (ch + 224) % 256
  let rowIndex := charIndex * font.height + i
  if 32 ≤ ch ∧ ch ≤ 126 ∧ rowIndex < font.data.length then
    font.data.getD rowIndex 0
  else 0xFFFF

/-- Writes performed by `Display::write_char`: per glyph row `i` take the row
word, per column `j` bit `j` of the row word (LSB first) selects `color` over
`bgcolor`. -/
def writeCharWrites (x y ch : ℕ) (font : Font) (color bgcolor : ℕ) :
    List (ℕ × ℕ) :=
  (List.range font.height).flatMap fun i =>
    let b := charRowWord ch font i
    (List.range font.width).filterMap fun j =>
      (gamePixelIndex (x + j) (y + i)).map fun fi =>
        (fi, rgb565_to_argb8888 (if b &&& (1 <<< j) ≠ 0 then color else bgcolor))

/-- `Display::write_char`. -/
def write_char (fb : FB) (x y ch : ℕ) (font : Font) (color bgcolor : ℕ) : FB :=
  applyWrites fb (writeCharWrites x y ch font color bgcolor)

/-- Glyph placement computed by the `Display::write_string` loop: for each
character, wrap to `x = 0, y += font.height` when `x + font.width` reaches
`GAME_WIDTH` (u16 arithmetic), stop when after a wrap `y + font.height`
reaches `GAME_HEIGHT`, skip a space right after a wrap; otherwise emit the
glyph at `(x, y)` and advance `x` by `font.width`. -/
def writeStringLayout (font : Font) : List ℕ → ℕ → ℕ → List (ℕ × ℕ × ℕ)
  | [], _, _ => []
  | ch :: rest, x, y =>
    if GAME_WIDTH ≤ wrap16 (x + font.width) then
      let y2 := wrap16 (y + font.height)
      if GAME_HEIGHT ≤ wrap16 (y2 + font.height) then []
      else if ch = 32 then writeStringLayout font rest 0 y2
      else (0, y2, ch) :: writeStringLayout font rest (wrap16 (0 + font.width)) y2
    else (x, y, ch) :: writeStringLayout font rest (wrap16 (x + font.width)) y

/-- `Display::write_string`: draw each laid-out glyph with `write_char`. -/
def write_string (fb : FB) (x y : ℕ) (chars : List ℕ) (font : Font)
    (color bgcolor : ℕ) : FB :=
  (writeStringLayout font chars x y).foldl
    (fun fb p => write_char fb p.1 p.2.1 p.2.2 font color bgcolor) fb

/-! ### Layer compositor state (src/lcd.rs lines 230-293) -/

/-- `LcdDriver::layer1_back_addr`: the Layer-1 buffer address not currently
presented (`L1_FRONT` is the argument). -/
def layer1_back_addr (front : ℕ) : ℕ :=
  if front = LAYER1_BASE then LAYER1_BASE_B else LAYER1_BASE

/-- `LcdDriver::swap_layer1_buffers`: the back buffer becomes the new front
(the CFBAR register write and vblank latch carry the same address). -/
def swap_layer1_buffers (front : ℕ) : ℕ := layer1_back_addr front

/-- Front-buffer tracker states reachable from the initial
`L1_FRONT = LAYER1_BASE` by swaps. -/
inductive L1Reachable : ℕ → Prop
  | init : L1Reachable LAYER1_BASE
  | swap (s : ℕ) : L1Reachable s → L1Reachable (swap_layer1_buffers s)

/-- Overlay viewport window produced by `set_layer2_position`. -/
structure Layer2Window where
  x : ℕ
  y : ℕ
  hStart : ℕ
  hStop : ℕ
  vStart : ℕ
  vStop : ℕ

/-- `LcdDriver::set_layer2_position`: clamp `(x, y)` with
`min (x, LCD_WIDTH - LAYER2_W)` / `min (y, LCD_HEIGHT - LAYER2_H)`
(`saturating_sub` is ℕ subtraction) and program the window registers. -/
def set_layer2_position (x y : ℕ) : Layer2Window :=
  let x := min x (LCD_WIDTH - LAYER2_W)
  let y := min y (LCD_HEIGHT - LAYER2_H)
  { x := x
    y := y
    hStart := HSYNC + HBP + x
    hStop := HSYNC + HBP + x + LAYER2_W - 1
    vStart := VSYNC + VBP + y
    vStop := VSYNC + VBP + y + LAYER2_H - 1 }

/-! ### Pixel-content view of an image blit (for the rotation algebra) -/

/-- Content of the `w x h` destination rectangle of
`draw_image_to_framebuffer`, as a function of the cell position
`p = row * w + col`: the source pixel selected through `srcIndex`, or the
previous content `bg p` when the source index is out of range (the skipped
case).  This isolates the source-index routing of the blit from the color
conversion and the fixed position remap, both of which are injective on a
fully in-bounds rectangle. -/
def drawnContent (t : ImageTransform) (w h : ℕ) (src : List ℕ) (bg : ℕ → ℕ) :
    ℕ → ℕ := fun p =>
  if p < w * h then
    let row := p / w
    let col := p % w
    let idx := srcIndex t w h row col
    if idx < src.length then src.getD idx 0 else bg p
  else bg p

/-- An all-zero framebuffer, used for concrete evaluations. -/
def fbZero : FB := fun _ => 0

/-! ## Basic lemmas about the write machinery -/

theorem wrap16_eq_of_lt {n : ℕ} (h : n < 65536) : wrap16 n = n :=
  Nat.mod_eq_of_lt h

theorem fbWrite_apply (fb : FB) (i v j : ℕ) :
    fbWrite fb i v j = if j = i then v else fb j := rfl

theorem applyWrites_cons (fb : FB) (wv : ℕ × ℕ) (ws : List (ℕ × ℕ)) :
    applyWrites fb (wv :: ws) = applyWrites (fbWrite fb wv.1 wv.2) ws := rfl

/-- A cell no write targets keeps its previous value. -/
theorem applyWrites_apply_of_not_written (ws : List (ℕ × ℕ)) :
    ∀ (fb : FB) (i : ℕ), (∀ wv ∈ ws, wv.1 ≠ i) → applyWrites fb ws i = fb i := by
  induction ws with
  | nil => intro fb i _; rfl
  | cons wv ws ih =>
    intro fb i h
    rw [applyWrites_cons, ih _ _ (fun v hv => h v (List.mem_cons_of_mem _ hv))]
    rw [fbWrite_apply, if_neg (fun hh => h wv (List.mem_cons_self _ _) hh.symm)]

/-- A cell some write targets, all targeting writes carrying the same value,
ends up holding that value. -/
theorem applyWrites_apply_of_written (ws : List (ℕ × ℕ)) :
    ∀ (fb : FB) (i v : ℕ), (∀ wv ∈ ws, wv.1 = i → wv.2 = v) →
      (∃ wv ∈ ws, wv.1 = i) → applyWrites fb ws i = v := by
  induction ws with
  | nil =>
    rintro fb i v _ ⟨wv, hmem, _⟩
    exact absurd hmem (List.not_mem_nil _)
  | cons wv ws ih =>
    intro fb i v hall hex
    rw [applyWrites_cons]
    by_cases hrest : ∃ wv' ∈ ws, wv'.1 = i
    · exact ih _ _ _ (fun q hq => hall q (List.mem_cons_of_mem _ hq)) hrest
    · have hhead : wv.1 = i := by
        rcases hex with ⟨q, hq, hqi⟩
        rcases List.mem_cons.mp hq with rfl | hq'
        · exact hqi
        · exact absurd ⟨q, hq', hqi⟩ hrest
      have hnone : ∀ wv' ∈ ws, wv'.1 ≠ i := fun q hq hqi => hrest ⟨q, hq, hqi⟩
      rw [applyWrites_apply_of_not_written ws _ _ hnone, fbWrite_apply,
        if_pos hhead.symm]
      exact hall wv (List.mem_cons_self _ _) hhead

theorem mem_rowColPairs {h w : ℕ} {rc : ℕ × ℕ} :
    rc ∈ rowColPairs h w ↔ rc.1 < h ∧ rc.2 < w := by
  constructor
  · intro hmem
    rcases List.mem_flatMap.mp hmem with ⟨row, hrow, hmem2⟩
    rcases List.mem_map.mp hmem2 with ⟨col, hcol, heq⟩
    cases heq
    exact ⟨List.mem_range.mp hrow, List.mem_range.mp hcol⟩
  · rintro ⟨h1, h2⟩
    exact List.mem_flatMap.mpr ⟨rc.1, List.mem_range.mpr h1,
      List.mem_map.mpr ⟨rc.2, List.mem_range.mpr h2, rfl⟩⟩

theorem gamePixelIndex_eq_some {gx gy i : ℕ} :
    gamePixelIndex gx gy = some i ↔
      gx < GAME_WIDTH ∧ gy < GAME_HEIGHT ∧ i = fbIndex gx gy := by
  unfold gamePixelIndex
  by_cases h1 : GAME_WIDTH ≤ gx ∨ GAME_HEIGHT ≤ gy
  · rw [if_pos h1]
    constructor
    · intro hc; exact absurd hc (by simp)
    · rintro ⟨hgx, hgy, _⟩
      simp only [GAME_WIDTH, GAME_HEIGHT] at h1 hgx hgy
      omega
  · have h1' := h1
    push_neg at h1'
    have h2 : ¬ (LCD_WIDTH ≤ gy ∨ LCD_HEIGHT ≤ GAME_WIDTH - 1 - gx) := by
      simp only [GAME_WIDTH, GAME_HEIGHT, LCD_WIDTH, LCD_HEIGHT] at h1' ⊢
      omega
    simp only [if_neg h1, if_neg h2, Option.some_inj, fbIndex]
    constructor
    · intro hh; exact ⟨h1'.1, h1'.2, hh.symm⟩
    · rintro ⟨_, _, h3⟩; exact h3.symm

theorem fbIndex_inj {gx gy gx' gy' : ℕ}
    (h1 : gx < GAME_WIDTH) (h2 : gy < GAME_HEIGHT)
    (h3 : gx' < GAME_WIDTH) (h4 : gy' < GAME_HEIGHT)
    (heq : fbIndex gx gy = fbIndex gx' gy') : gx = gx' ∧ gy = gy' := by
  simp only [fbIndex, GAME_WIDTH, GAME_HEIGHT, LCD_WIDTH] at *
  omega

theorem mem_fillRectWrites {x w y h color : ℕ} {wv : ℕ × ℕ} :
    wv ∈ fillRectWrites x w y h color ↔
      ∃ row col, row < h ∧ col < w ∧
        x + col < GAME_WIDTH ∧ y + row < GAME_HEIGHT ∧
        wv = (fbIndex (x + col) (y + row), rgb565_to_argb8888 color) := by
  unfold fillRectWrites
  rw [List.mem_filterMap]
  constructor
  · rintro ⟨rc, hrc, hmap⟩
    rcases Option.map_eq_some'.mp hmap with ⟨i, hsome, hval⟩
    rcases gamePixelIndex_eq_some.mp hsome with ⟨hgx, hgy, hi⟩
    rcases mem_rowColPairs.mp hrc with ⟨hr, hc⟩
    exact ⟨rc.1, rc.2, hr, hc, hgx, hgy, by rw [← hval, hi]⟩
  · rintro ⟨row, col, hr, hc, hgx, hgy, rfl⟩
    refine ⟨(row, col), mem_rowColPairs.mpr ⟨hr, hc⟩, ?_⟩
    rw [Option.map_eq_some']
    exact ⟨fbIndex (x + col) (y + row),
      gamePixelIndex_eq_some.mpr ⟨hgx, hgy, rfl⟩, rfl⟩

theorem mem_drawImageWrites {x y w h : ℕ} {data : List ℕ} {t : ImageTransform}
    {wv : ℕ × ℕ} :
    wv ∈ drawImageWrites x y w h data t ↔
      ∃ row col, row < h ∧ col < w ∧
        x + col < GAME_WIDTH ∧ y + row < GAME_HEIGHT ∧
        srcIndex t w h row col < data.length ∧
        wv = (fbIndex (x + col) (y + row),
          rgb565_to_argb8888 (data.getD (srcIndex t w h row col) 0)) := by
  unfold drawImageWrites
  rw [List.mem_filterMap]
  constructor
  · rintro ⟨rc, hrc, hbind⟩
    rcases Option.bind_eq_some.mp hbind with ⟨i, hsome, hif⟩
    rcases gamePixelIndex_eq_some.mp hsome with ⟨hgx, hgy, hi⟩
    rcases mem_rowColPairs.mp hrc with ⟨hr, hc⟩
    by_cases hidx : srcIndex t w h rc.1 rc.2 < data.length
    · rw [if_pos hidx, Option.some_inj] at hif
      exact ⟨rc.1, rc.2, hr, hc, hgx, hgy, hidx, by rw [← hif, hi]⟩
    · rw [if_neg hidx] at hif
      exact absurd hif (by simp)
  · rintro ⟨row, col, hr, hc, hgx, hgy, hidx, rfl⟩
    refine ⟨(row, col), mem_rowColPairs.mpr ⟨hr, hc⟩, ?_⟩
    rw [Option.bind_eq_some]
    exact ⟨fbIndex (x + col) (y + row),
      gamePixelIndex_eq_some.mpr ⟨hgx, hgy, rfl⟩, by rw [if_pos hidx]⟩

theorem mem_writeCharWrites {x y ch : ℕ} {font : Font} {color bgcolor : ℕ}
    {wv : ℕ × ℕ} :
    wv ∈ writeCharWrites x y ch font color bgcolor ↔
      ∃ i j, i < font.height ∧ j < font.width ∧
        x + j < GAME_WIDTH ∧ y + i < GAME_HEIGHT ∧
        wv = (fbIndex (x + j) (y + i),
          rgb565_to_argb8888
            (if charRowWord ch font i &&& (1 <<< j) ≠ 0 then color else bgcolor)) := by
  unfold writeCharWrites
  rw [List.mem_flatMap]
  constructor
  · rintro ⟨i, hi, hmem⟩
    rcases List.mem_filterMap.mp hmem with ⟨j, hj, hmap⟩
    rcases Option.map_eq_some'.mp hmap with ⟨fi, hsome, hval⟩
    rcases gamePixelIndex_eq_some.mp hsome with ⟨hgx, hgy, hfi⟩
    exact ⟨i, j, List.mem_range.mp hi, List.mem_range.mp hj, hgx, hgy,
      by rw [← hval, hfi]⟩
  · rintro ⟨i, j, hi, hj, hgx, hgy, rfl⟩
    refine ⟨i, List.mem_range.mpr hi, List.mem_filterMap.mpr
      ⟨j, List.mem_range.mpr hj, ?_⟩⟩
    rw [Option.map_eq_some']
    exact ⟨fbIndex (x + j) (y + i),
      gamePixelIndex_eq_some.mpr ⟨hgx, hgy, rfl⟩, rfl⟩

/-- Per-pixel result of the image blit on an in-bounds destination cell. -/
theorem draw_image_pixel (fb : FB) (x y w h : ℕ) (data : List ℕ)
    (t : ImageTransform) {row col : ℕ} (hr : row < h) (hc : col < w)
    (hgx : x + col < GAME_WIDTH) (hgy : y + row < GAME_HEIGHT) :
    draw_image_to_framebuffer fb x y w h data t (fbIndex (x + col) (y + row)) =
      if srcIndex t w h row col < data.length
      then rgb565_to_argb8888 (data.getD (srcIndex t w h row col) 0)
      else fb (fbIndex (x + col) (y + row)) := by
  by_cases hidx : srcIndex t w h row col < data.length
  · rw [if_pos hidx]
    apply applyWrites_apply_of_written
    · rintro wv hwv hwvi
      rcases mem_drawImageWrites.mp hwv with ⟨row', col', hr', hc', hgx', hgy', hidx', rfl⟩
      obtain ⟨he1, he2⟩ := fbIndex_inj hgx' hgy' hgx hgy hwvi
      have hcc : col' = col := by omega
      have hrr : row' = row := by omega
      rw [hcc, hrr]
    · exact ⟨_, mem_drawImageWrites.mpr ⟨row, col, hr, hc, hgx, hgy, hidx, rfl⟩, rfl⟩
  · rw [if_neg hidx]
    apply applyWrites_apply_of_not_written
    intro wv hwv heq
    rcases mem_drawImageWrites.mp hwv with ⟨row', col', hr', hc', hgx', hgy', hidx', rfl⟩
    obtain ⟨he1, he2⟩ := fbIndex_inj hgx' hgy' hgx hgy heq
    have hcc : col' = col := by omega
    have hrr : row' = row := by omega
    rw [hcc, hrr] at hidx'
    exact hidx hidx'

/-- A blit whose whole destination row range lies below the game area writes
nothing. -/
theorem draw_image_out_of_bounds_y (fb : FB) (x y w h : ℕ) (data : List ℕ)
    (t : ImageTransform) (hy : GAME_HEIGHT ≤ y) :
    draw_image_to_framebuffer fb x y w h data t = fb := by
  funext i
  apply applyWrites_apply_of_not_written
  intro wv hwv _
  rcases mem_drawImageWrites.mp hwv with ⟨row, col, _, _, _, hgy, _, rfl⟩
  omega

/-! ## C1: fill_rect paints exactly the requested rectangle -/

/-- C1 (amended: `w` and `h` must be at least 1; the u16 computation
`x + w - 1` wraps for `x = w = 0` or `y = h = 0` and then fills up to the
whole row/column range instead of nothing).  For every rectangle with
`1 <= w`, `1 <= h`, `x + w <= GAME_WIDTH`, `y + h <= GAME_HEIGHT`, after
`fill_rect` every logical pixel of `[x, x+w) x [y, y+h)` holds the RGB565
color converted to ARGB8888, and every framebuffer cell outside the remapped
rectangle is unchanged. -/
theorem fill_rect_paints_exact_rect (fb : FB) (x w y h c : ℕ)
    (hw : 1 ≤ w) (hh : 1 ≤ h)
    (hxw : x + w ≤ GAME_WIDTH) (hyh : y + h ≤ GAME_HEIGHT) :
    (∀ gx gy, x ≤ gx → gx < x + w → y ≤ gy → gy < y + h →
       fill_rect fb x w y h c (fbIndex gx gy) = rgb565_to_argb8888 c) ∧
    (∀ i, (∀ gx gy, x ≤ gx → gx < x + w → y ≤ gy → gy < y + h →
             i ≠ fbIndex gx gy) →
       fill_rect fb x w y h c i = fb i) := by
  have hGW : GAME_WIDTH = 320 := rfl
  have hGH : GAME_HEIGHT = 240 := rfl
  have hx : ¬ (GAME_WIDTH ≤ x ∨ GAME_HEIGHT ≤ y) := by omega
  have hwlt : wrap16 (x + w + 65535) = x + w - 1 := by unfold wrap16; omega
  have hhlt : wrap16 (y + h + 65535) = y + h - 1 := by unfold wrap16; omega
  have hclipw : ¬ (GAME_WIDTH ≤ wrap16 (x + w + 65535)) := by rw [hwlt]; omega
  have hcliph : ¬ (GAME_HEIGHT ≤ wrap16 (y + h + 65535)) := by rw [hhlt]; omega
  unfold fill_rect
  simp only [if_neg hx, if_neg hclipw, if_neg hcliph]
  constructor
  · intro gx gy h1 h2 h3 h4
    apply applyWrites_apply_of_written
    · rintro wv hwv _
      rcases mem_fillRectWrites.mp hwv with ⟨row, col, _, _, _, _, rfl⟩
      rfl
    · have hgx : x + (gx - x) = gx := by omega
      have hgy : y + (gy - y) = gy := by omega
      refine ⟨(fbIndex gx gy, rgb565_to_argb8888 c),
        mem_fillRectWrites.mpr ⟨gy - y, gx - x, by omega, by omega,
          by omega, by omega, ?_⟩, rfl⟩
      rw [hgx, hgy]
  · intro i hout
    apply applyWrites_apply_of_not_written
    intro wv hwv heq
    rcases mem_fillRectWrites.mp hwv with ⟨row, col, hrow, hcol, _, _, rfl⟩
    exact hout (x + col) (y + row) (by omega) (by omega) (by omega) (by omega)
      heq.symm

/-- Witness for C1 at a concrete rectangle. -/
theorem fill_rect_paints_exact_rect_witness :
    fill_rect fbZero 2 2 3 1 0xF800 (fbIndex 2 3) = rgb565_to_argb8888 0xF800 ∧
    fill_rect fbZero 2 2 3 1 0xF800 7 = fbZero 7 := by
  have h := fill_rect_paints_exact_rect fbZero 2 2 3 1 0xF800
    (by decide) (by decide) (by decide) (by decide)
  refine ⟨h.1 2 3 (by decide) (by decide) (by decide) (by decide), h.2 7 ?_⟩
  intro gx gy h1 h2 h3 h4
  simp only [fbIndex, GAME_WIDTH, LCD_WIDTH]
  omega

set_option maxRecDepth 40000 in
/-- Counterexample to C1 as stated: the degenerate in-bounds rectangle
`(x, y, w, h) = (0, 0, 1, 0)` (so `y + h <= GAME_HEIGHT` holds and the
rectangle `[0,1) x [0,0)` is empty) still changes the framebuffer: the u16
subtraction in `(y + h - 1) >= GAME_HEIGHT` wraps, `h` is clipped to 240, and
the whole column `gx = 0` is filled; the cell of game pixel `(0, 5)` changes. -/
theorem fill_rect_degenerate_rect_counterexample :
    fill_rect fbZero 0 1 0 0 0xF800 (fbIndex 0 5) ≠ fbZero (fbIndex 0 5) := by
  decide

/-! ## C2: drawing calls clip instead of failing, but panic on bad inputs -/

/-- The chain of the four u16 conversions performed by `draw_rect_angle` and
`draw_image_transformed` succeeds exactly when all four inputs fit in u16. -/
theorem quadBind_isSome {A : Type} (xi yi : ℤ) (w h : ℕ)
    (k : ℕ → ℕ → ℕ → ℕ → Option A) (hk : ∀ a b c d, (k a b c d).isSome) :
    ((tryIntoU16ofInt xi).bind fun x =>
     (tryIntoU16ofInt yi).bind fun y =>
     (tryIntoU16ofNat w).bind fun w =>
     (tryIntoU16ofNat h).bind fun h => k x y w h).isSome ↔
      (0 ≤ xi ∧ xi < 65536 ∧ 0 ≤ yi ∧ yi < 65536 ∧ w < 65536 ∧ h < 65536) := by
  by_cases c1 : 0 ≤ xi ∧ xi < 65536 <;>
    by_cases c2 : 0 ≤ yi ∧ yi < 65536 <;>
      by_cases c3 : w < 65536 <;>
        by_cases c4 : h < 65536 <;>
          simp [tryIntoU16ofInt, tryIntoU16ofNat, c1, c2, c3, c4, hk]

/-- Value of the conversion chain on in-range natural inputs. -/
theorem quadBind_eq {A : Type} (x y w h : ℕ)
    (hx : x < 65536) (hy : y < 65536) (hw : w < 65536) (hh : h < 65536)
    (k : ℕ → ℕ → ℕ → ℕ → Option A) :
    ((tryIntoU16ofInt (x : ℤ)).bind fun x =>
     (tryIntoU16ofInt (y : ℤ)).bind fun y =>
     (tryIntoU16ofNat w).bind fun w =>
     (tryIntoU16ofNat h).bind fun h => k x y w h) = k x y w h := by
  have hx' : (0 : ℤ) ≤ (x : ℤ) ∧ (x : ℤ) < 65536 :=
    ⟨Int.natCast_nonneg x, by exact_mod_cast hx⟩
  have hy' : (0 : ℤ) ≤ (y : ℤ) ∧ (y : ℤ) < 65536 :=
    ⟨Int.natCast_nonneg y, by exact_mod_cast hy⟩
  simp [tryIntoU16ofInt, tryIntoU16ofNat, hx', hy', hw, hh]

/-- C2 (amended: only inputs representable as u16 avoid the panic — the
`try_into().expect(..)` conversions panic on negative coordinates and on
values above 65535, by design).  For u16-representable inputs both calls
complete without panicking; an `x` or `y` at or beyond the logical bounds
yields no pixels written; oversized `w`/`h` is truncated, so `fill_rect` via
`draw_rect_angle` at `x = GAME_WIDTH - 1` with `w = 10`, `h = 1` writes
exactly one pixel. -/
theorem draw_calls_clip_and_truncate (fb : FB) (xi yi : ℤ) (w h c : ℕ)
    (data : List ℕ) (t : ImageTransform) :
    ((draw_rect_angle fb xi w yi h c).isSome ↔
       (0 ≤ xi ∧ xi < 65536 ∧ 0 ≤ yi ∧ yi < 65536 ∧ w < 65536 ∧ h < 65536)) ∧
    ((draw_image_transformed fb xi w yi h data t).isSome ↔
       (0 ≤ xi ∧ xi < 65536 ∧ 0 ≤ yi ∧ yi < 65536 ∧ w < 65536 ∧ h < 65536)) ∧
    (∀ x y : ℕ, x < 65536 → y < 65536 → w < 65536 → h < 65536 →
       (GAME_WIDTH ≤ x ∨ GAME_HEIGHT ≤ y) →
       draw_rect_angle fb (x : ℤ) w (y : ℤ) h c = some fb ∧
       draw_image_transformed fb (x : ℤ) w (y : ℤ) h data t = some fb) ∧
    draw_rect_angle fb 319 10 0 1 c =
      some (fbWrite fb (fbIndex 319 0) (rgb565_to_argb8888 c)) := by
  refine ⟨?_, ?_, ?_, ?_⟩
  · exact quadBind_isSome xi yi w h _ (fun _ _ _ _ => rfl)
  · refine quadBind_isSome xi yi w h _ (fun a b c d => ?_)
    dsimp only
    split <;> simp
  · intro x y hx hy hw hh hxy
    have hGW : GAME_WIDTH = 320 := rfl
    have hGH : GAME_HEIGHT = 240 := rfl
    have hDW : DISPLAY_WIDTH = 240 := rfl
    have hDH : DISPLAY_HEIGHT = 320 := rfl
    constructor
    · rw [draw_rect_angle, quadBind_eq x y w h hx hy hw hh]
      unfold fill_rect
      rw [if_pos hxy]
    · rw [draw_image_transformed, quadBind_eq x y w h hx hy hw hh]
      by_cases hdisp : DISPLAY_WIDTH ≤ x ∨ DISPLAY_HEIGHT ≤ y
      · rw [if_pos hdisp]
      · rw [if_neg hdisp]
        have hy240 : GAME_HEIGHT ≤ y := by omega
        simp only [draw_image_out_of_bounds_y _ _ _ _ _ _ _ hy240]
  · rfl

/-- Witness for C2 at concrete inputs. -/
theorem draw_calls_clip_and_truncate_witness :
    draw_rect_angle fbZero 320 5 0 5 3 = some fbZero ∧
    draw_rect_angle fbZero 319 10 0 1 3 =
      some (fbWrite fbZero (fbIndex 319 0) (rgb565_to_argb8888 3)) := by
  have h := draw_calls_clip_and_truncate fbZero 320 0 5 5 3 [] ImageTransform.NONE
  exact ⟨(h.2.2.1 320 0 (by decide) (by decide) (by decide) (by decide)
    (by left; decide)).1, h.2.2.2⟩

/-- Counterexample to C2 as stated: a negative `x` coordinate does not lead
to an early return — both drawing calls panic in the `i32 -> u16`
conversion (`none` in this model). -/
theorem draw_calls_negative_coordinate_counterexample :
    draw_rect_angle fbZero (-1) 1 0 1 0 = none ∧
    draw_image_transformed fbZero (-1) 1 0 1 [] ImageTransform.NONE = none :=
  ⟨rfl, rfl⟩

/-! ## C3: Layer-1 double-buffer swap invariants -/

/-- C3: on every reachable front state, the back address after a swap differs
from the back address before it and equals the previous front, a double swap
restores the original assignment, and front/back always partition the two
fixed buffer addresses. -/
theorem double_buffer_swap_invariant (s : ℕ) (hs : L1Reachable s) :
    layer1_back_addr (swap_layer1_buffers s) ≠ layer1_back_addr s ∧
    layer1_back_addr (swap_layer1_buffers s) = s ∧
    swap_layer1_buffers (swap_layer1_buffers s) = s ∧
    ((s = LAYER1_BASE ∧ layer1_back_addr s = LAYER1_BASE_B) ∨
     (s = LAYER1_BASE_B ∧ layer1_back_addr s = LAYER1_BASE)) := by
  have hAB : LAYER1_BASE ≠ LAYER1_BASE_B := by decide
  have hcase : s = LAYER1_BASE ∨ s = LAYER1_BASE_B := by
    induction hs with
    | init => exact Or.inl rfl
    | swap s' _ ih =>
      rcases ih with rfl | rfl
      · right
        unfold swap_layer1_buffers layer1_back_addr
        rw [if_pos rfl]
      · left
        unfold swap_layer1_buffers layer1_back_addr
        rw [if_neg (Ne.symm hAB)]
  rcases hcase with rfl | rfl
  · exact ⟨by decide, by decide, by decide, Or.inl ⟨rfl, by decide⟩⟩
  · exact ⟨by decide, by decide, by decide, Or.inr ⟨rfl, by decide⟩⟩

/-- Witness for C3 at the initial front buffer. -/
theorem double_buffer_swap_invariant_witness :
    layer1_back_addr (swap_layer1_buffers LAYER1_BASE) = LAYER1_BASE ∧
    swap_layer1_buffers (swap_layer1_buffers LAYER1_BASE) = LAYER1_BASE :=
  ⟨(double_buffer_swap_invariant LAYER1_BASE L1Reachable.init).2.1,
   (double_buffer_swap_invariant LAYER1_BASE L1Reachable.init).2.2.1⟩

/-! ## C6: overlay position clamping -/

/-- C6: `set_layer2_position` clamps each coordinate independently to
`panel_size - overlay_size`, and the resulting viewport always lies fully on
the panel. -/
theorem move_overlay_clamps (x y : ℕ) :
    (LCD_WIDTH - LAYER2_W < x →
       (set_layer2_position x y).x = LCD_WIDTH - LAYER2_W) ∧
    (x ≤ LCD_WIDTH - LAYER2_W → (set_layer2_position x y).x = x) ∧
    (LCD_HEIGHT - LAYER2_H < y →
       (set_layer2_position x y).y = LCD_HEIGHT - LAYER2_H) ∧
    (y ≤ LCD_HEIGHT - LAYER2_H → (set_layer2_position x y).y = y) ∧
    (set_layer2_position x y).x + LAYER2_W ≤ LCD_WIDTH ∧
    (set_layer2_position x y).y + LAYER2_H ≤ LCD_HEIGHT ∧
    (set_layer2_position x y).hStart =
      HSYNC + HBP + (set_layer2_position x y).x ∧
    (set_layer2_position x y).vStart =
      VSYNC + VBP + (set_layer2_position x y).y := by
  unfold set_layer2_position
  dsimp only
  simp only [LCD_WIDTH, LCD_HEIGHT, LAYER2_W, LAYER2_H,
    LAYER2_SIDE, HSYNC, HBP, VSYNC, VBP]
  refine ⟨?_, ?_, ?_, ?_, ?_, ?_, ?_, ?_⟩ <;> (try trivial) <;> omega

/-- Witness for C6 at an out-of-range request. -/
theorem move_overlay_clamps_witness :
    (set_layer2_position 1000 999).x = LCD_WIDTH - LAYER2_W ∧
    (set_layer2_position 1000 999).y = LCD_HEIGHT - LAYER2_H :=
  ⟨(move_overlay_clamps 1000 999).1 (by decide),
   (move_overlay_clamps 1000 999).2.2.1 (by decide)⟩

/-! ## C7: RGB565 to ARGB8888 channel rescaling -/

theorem lor_add_of_multiple (k : ℕ) {a b : ℕ} (hb : b < 2 ^ k) (m : ℕ)
    (ha : a = 2 ^ k * m) : a ||| b = a + b := by
  rw [ha]
  exact (Nat.mul_add_lt_is_or hb m).symm

/-- ARGB8888 packing of three byte channels under full alpha is plain
positional arithmetic. -/
theorem argb_pack (r g b : ℕ) (hr : r < 256) (hg : g < 256) (hb : b < 256) :
    0xFF000000 ||| (r <<< 16) ||| (g <<< 8) ||| b =
      0xFF000000 + r * 65536 + g * 256 + b := by
  have p24 : (2 : ℕ) ^ 24 = 16777216 := by norm_num
  have p16 : (2 : ℕ) ^ 16 = 65536 := by norm_num
  have p8 : (2 : ℕ) ^ 8 = 256 := by norm_num
  have e1 : (0xFF000000 : ℕ) ||| r * 65536 = 0xFF000000 + r * 65536 :=
    lor_add_of_multiple 24 (by rw [p24]; omega) 255 (by rw [p24])
  have e2 : (0xFF000000 + r * 65536 : ℕ) ||| g * 256 =
      0xFF000000 + r * 65536 + g * 256 :=
    lor_add_of_multiple 16 (by rw [p16]; omega) (65280 + r) (by rw [p16]; omega)
  have e3 : (0xFF000000 + r * 65536 + g * 256 : ℕ) ||| b =
      0xFF000000 + r * 65536 + g * 256 + b :=
    lor_add_of_multiple 8 (by rw [p8]; omega) (16711680 + r * 256 + g)
      (by rw [p8]; omega)
  calc 0xFF000000 ||| (r <<< 16) ||| (g <<< 8) ||| b
      = ((0xFF000000 ||| r * 65536) ||| g * 256) ||| b := by
        rw [Nat.shiftLeft_eq, Nat.shiftLeft_eq, p16, p8]
    _ = ((0xFF000000 + r * 65536) ||| g * 256) ||| b := by rw [e1]
    _ = (0xFF000000 + r * 65536 + g * 256) ||| b := by rw [e2]
    _ = 0xFF000000 + r * 65536 + g * 256 + b := e3

/-- C7: the conversion rescales each channel by `channel * 255 / max`
(31 for the 5-bit red/blue channels, 63 for the 6-bit green channel), sets
alpha to `0xFF`, and maps the three saturated primaries as specified. -/
theorem rgb565_conversion_rescales_channels (c : ℕ) :
    rgb565_to_argb8888 c / 16777216 = 0xFF ∧
    rgb565_to_argb8888 c / 65536 % 256 = ((c >>> 11) &&& 0x1F) * 255 / 31 ∧
    rgb565_to_argb8888 c / 256 % 256 = ((c >>> 5) &&& 0x3F) * 255 / 63 ∧
    rgb565_to_argb8888 c % 256 = (c &&& 0x1F) * 255 / 31 ∧
    rgb565_to_argb8888 0xF800 = 0xFFFF0000 ∧
    rgb565_to_argb8888 0x07E0 = 0xFF00FF00 ∧
    rgb565_to_argb8888 0x001F = 0xFF0000FF := by
  have hr : (c >>> 11) &&& 0x1F ≤ 31 := Nat.and_le_right
  have hg : (c >>> 5) &&& 0x3F ≤ 63 := Nat.and_le_right
  have hb : c &&& 0x1F ≤ 31 := Nat.and_le_right
  have hr8 : ((c >>> 11) &&& 0x1F) * 255 / 31 ≤ 255 := by omega
  have hg8 : ((c >>> 5) &&& 0x3F) * 255 / 63 ≤ 255 := by omega
  have hb8 : (c &&& 0x1F) * 255 / 31 ≤ 255 := by omega
  have hpack : rgb565_to_argb8888 c =
      0xFF000000 + ((c >>> 11) &&& 0x1F) * 255 / 31 * 65536 +
        ((c >>> 5) &&& 0x3F) * 255 / 63 * 256 + (c &&& 0x1F) * 255 / 31 := by
    unfold rgb565_to_argb8888
    exact argb_pack _ _ _ (by omega) (by omega) (by omega)
  have hdivr : rgb565_to_argb8888 c / 65536 =
      65280 + ((c >>> 11) &&& 0x1F) * 255 / 31 := by
    rw [hpack]
    have h1 : 0xFF000000 + ((c >>> 11) &&& 0x1F) * 255 / 31 * 65536 +
        ((c >>> 5) &&& 0x3F) * 255 / 63 * 256 + (c &&& 0x1F) * 255 / 31 =
        65536 * (65280 + ((c >>> 11) &&& 0x1F) * 255 / 31) +
          (((c >>> 5) &&& 0x3F) * 255 / 63 * 256 + (c &&& 0x1F) * 255 / 31) := by
      omega
    rw [h1, Nat.mul_add_div (by norm_num),
      Nat.div_eq_of_lt (show ((c >>> 5) &&& 0x3F) * 255 / 63 * 256 +
        (c &&& 0x1F) * 255 / 31 < 65536 by omega)]
    omega
  have hdivg : rgb565_to_argb8888 c / 256 =
      16711680 + ((c >>> 11) &&& 0x1F) * 255 / 31 * 256 +
        ((c >>> 5) &&& 0x3F) * 255 / 63 := by
    rw [hpack]
    have h1 : 0xFF000000 + ((c >>> 11) &&& 0x1F) * 255 / 31 * 65536 +
        ((c >>> 5) &&& 0x3F) * 255 / 63 * 256 + (c &&& 0x1F) * 255 / 31 =
        256 * (16711680 + ((c >>> 11) &&& 0x1F) * 255 / 31 * 256 +
          ((c >>> 5) &&& 0x3F) * 255 / 63) + (c &&& 0x1F) * 255 / 31 := by
      omega
    rw [h1, Nat.mul_add_div (by norm_num),
      Nat.div_eq_of_lt (show (c &&& 0x1F) * 255 / 31 < 256 by omega)]
    omega
  refine ⟨?_, ?_, ?_, ?_, by decide, by decide, by decide⟩
  · rw [hpack]; omega
  · rw [hdivr]; omega
  · rw [hdivg]; omega
  · rw [hpack]; omega

/-! ## C4: every pixel lands at the fixed 90-degree remap of its game
coordinate -/

/-- C4: every write emitted by `fill_rect`'s loop, by
`draw_image_to_framebuffer` and by `write_char` targets index
`fbIndex game_x game_y` (that is `(GAME_WIDTH - 1 - game_x) * LCD_WIDTH +
game_y`, the fixed remap `lcd_x = game_y`, `lcd_y = GAME_WIDTH - 1 - game_x`)
of the game coordinate `(x + col, y + row)` of the drawn cell; for an image
blit the per-call transform only selects the source pixel through `srcIndex`
and never changes the destination index. -/
theorem blit_writes_use_fixed_remap (x y w h c ch color bg : ℕ)
    (data : List ℕ) (t : ImageTransform) (font : Font) :
    (∀ wv ∈ fillRectWrites x w y h c, ∃ row col, row < h ∧ col < w ∧
       x + col < GAME_WIDTH ∧ y + row < GAME_HEIGHT ∧
       wv.1 = fbIndex (x + col) (y + row) ∧ wv.2 = rgb565_to_argb8888 c) ∧
    (∀ wv ∈ drawImageWrites x y w h data t, ∃ row col, row < h ∧ col < w ∧
       x + col < GAME_WIDTH ∧ y + row < GAME_HEIGHT ∧
       wv.1 = fbIndex (x + col) (y + row) ∧
       wv.2 = rgb565_to_argb8888 (data.getD (srcIndex t w h row col) 0)) ∧
    (∀ wv ∈ writeCharWrites x y ch font color bg, ∃ i j,
       i < font.height ∧ j < font.width ∧
       x + j < GAME_WIDTH ∧ y + i < GAME_HEIGHT ∧
       wv.1 = fbIndex (x + j) (y + i)) := by
  refine ⟨?_, ?_, ?_⟩
  · intro wv hwv
    rcases mem_fillRectWrites.mp hwv with ⟨row, col, h1, h2, h3, h4, rfl⟩
    exact ⟨row, col, h1, h2, h3, h4, rfl, rfl⟩
  · intro wv hwv
    rcases mem_drawImageWrites.mp hwv with ⟨row, col, h1, h2, h3, h4, _, rfl⟩
    exact ⟨row, col, h1, h2, h3, h4, rfl, rfl⟩
  · intro wv hwv
    rcases mem_writeCharWrites.mp hwv with ⟨i, j, h1, h2, h3, h4, rfl⟩
    exact ⟨i, j, h1, h2, h3, h4, rfl⟩

/-- Witness for C4 on a singleton fill write list. -/
theorem blit_writes_use_fixed_remap_witness :
    ∃ row col, row < 1 ∧ col < 1 ∧
      0 + col < GAME_WIDTH ∧ 0 + row < GAME_HEIGHT ∧
      (fbIndex 0 0, rgb565_to_argb8888 9).1 = fbIndex (0 + col) (0 + row) ∧
      (fbIndex 0 0, rgb565_to_argb8888 9).2 = rgb565_to_argb8888 9 :=
  (blit_writes_use_fixed_remap 0 0 1 1 9 0 0 0 [] ImageTransform.NONE
    ⟨1, 1, []⟩).1 (fbIndex 0 0, rgb565_to_argb8888 9) (by
      refine mem_fillRectWrites.mpr ⟨0, 0, ?_, ?_, ?_, ?_, ?_⟩ <;> decide)

/-! ## C8: short source slices are skipped, never read out of bounds -/

/-- C8: when the computed source index of a destination cell is at or past the
end of the `pixels` slice, that framebuffer cell is left unchanged, and every
cell of the result either keeps its old value or holds the conversion of an
in-range source pixel (no out-of-bounds source read can influence the
output). -/
theorem draw_image_skips_short_source (fb : FB) (x y w h : ℕ)
    (data : List ℕ) (t : ImageTransform) :
    (∀ row col, row < h → col < w →
       x + col < GAME_WIDTH → y + row < GAME_HEIGHT →
       data.length ≤ srcIndex t w h row col →
       draw_image_to_framebuffer fb x y w h data t (fbIndex (x + col) (y + row)) =
         fb (fbIndex (x + col) (y + row))) ∧
    (∀ i, draw_image_to_framebuffer fb x y w h data t i = fb i ∨
       ∃ idx, idx < data.length ∧
         draw_image_to_framebuffer fb x y w h data t i =
           rgb565_to_argb8888 (data.getD idx 0)) := by
  constructor
  · intro row col hr hc hgx hgy hlen
    rw [draw_image_pixel fb x y w h data t hr hc hgx hgy, if_neg (by omega)]
  · intro i
    by_cases hex : ∃ wv ∈ drawImageWrites x y w h data t, wv.1 = i
    · rcases hex with ⟨wv, hwv, hwvi⟩
      rcases mem_drawImageWrites.mp hwv with ⟨row, col, hr, hc, hgx, hgy, hidx, rfl⟩
      right
      refine ⟨srcIndex t w h row col, hidx, ?_⟩
      have hi : fbIndex (x + col) (y + row) = i := hwvi
      rw [← hi, draw_image_pixel fb x y w h data t hr hc hgx hgy, if_pos hidx]
    · left
      apply applyWrites_apply_of_not_written
      intro wv hwv heq
      exact hex ⟨wv, hwv, heq⟩

/-- Witness for C8: an empty source slice leaves the framebuffer unchanged. -/
theorem draw_image_skips_short_source_witness :
    draw_image_to_framebuffer fbZero 0 0 1 1 [] ImageTransform.NONE
        (fbIndex 0 0) = fbZero (fbIndex 0 0) :=
  (draw_image_skips_short_source fbZero 0 0 1 1 [] ImageTransform.NONE).1
    0 0 (by decide) (by decide) (by decide) (by decide) (by decide)

/-! ## C5: 90-degree CW then 90-degree CCW blits compose to the identity
only on square images -/

theorem srcIndex_CW90 (w h row col : ℕ) :
    srcIndex ImageTransform.CW90 w h row col = (w - 1 - col) * w + row := rfl

theorem srcIndex_CCW90 (w h row col : ℕ) :
    srcIndex ImageTransform.CCW90 w h row col = col * w + (h - 1 - row) := rfl

theorem srcIndex_NONE (w h row col : ℕ) :
    srcIndex ImageTransform.NONE w h row col = row * w + col := rfl

theorem pack_lt {a b n : ℕ} (ha : a < n) (hb : b < n) : a * n + b < n * n :=
  calc a * n + b < a * n + n := by omega
    _ = (a + 1) * n := by ring
    _ ≤ n * n := Nat.mul_le_mul_right n (by omega)

theorem pack_div {a b n : ℕ} (hn : 0 < n) (hb : b < n) : (a * n + b) / n = a := by
  rw [Nat.mul_comm a n, Nat.mul_add_div hn, Nat.div_eq_of_lt hb, Nat.add_zero]

theorem pack_mod {a b n : ℕ} (hb : b < n) : (a * n + b) % n = b := by
  rw [Nat.mul_comm a n, Nat.mul_add_mod]
  exact Nat.mod_eq_of_lt hb

theorem getD_map_range (m : ℕ) (f : ℕ → ℕ) {i : ℕ} (hi : i < m) :
    ((List.range m).map f).getD i 0 = f i := by
  rw [List.getD_eq_getElem?_getD, List.getElem?_map, List.getElem?_range hi]
  rfl

/-- C5 (amended: the identity holds for square `n x n` images with a full
`n * n` pixel slice; for non-square images the blit indexes the source with
stride `w` regardless of the rotation, so the round trip loses pixels).
First part: reading the destination content of a CW90 blit of `src` back as
an image and blitting it CCW90 reproduces the content of an untransformed
blit of `src`, cell by cell.  Second part: the destination content function
used in the first part agrees with what `draw_image_to_framebuffer` actually
stores for the CW90 blit on every in-bounds cell. -/
theorem rotation_roundtrip_identity_on_squares (n : ℕ) (src : List ℕ)
    (bg1 bg2 : ℕ → ℕ) (hlen : src.length = n * n) :
    (∀ p, drawnContent ImageTransform.CCW90 n n
        ((List.range (n * n)).map (drawnContent ImageTransform.CW90 n n src bg1))
        bg2 p =
      drawnContent ImageTransform.NONE n n src bg2 p) ∧
    (∀ (fb : FB) (x y row col : ℕ), row < n → col < n →
       x + col < GAME_WIDTH → y + row < GAME_HEIGHT →
       draw_image_to_framebuffer fb x y n n src ImageTransform.CW90
           (fbIndex (x + col) (y + row)) =
         rgb565_to_argb8888
           (drawnContent ImageTransform.CW90 n n src bg1 (row * n + col))) := by
  have hmidlen :
      ((List.range (n * n)).map
        (drawnContent ImageTransform.CW90 n n src bg1)).length = n * n := by
    simp
  have hCW : ∀ {row col : ℕ}, row < n → col < n →
      drawnContent ImageTransform.CW90 n n src bg1 (row * n + col) =
        src.getD ((n - 1 - col) * n + row) 0 := by
    intro row col hr hc
    have hn : 0 < n := by omega
    have hp : row * n + col < n * n := pack_lt hr hc
    unfold drawnContent
    rw [if_pos hp]
    simp only [pack_div hn hc, pack_mod hc, srcIndex_CW90]
    rw [if_pos (by rw [hlen]; exact pack_lt (by omega) hr)]
  constructor
  · intro p
    by_cases hp : p < n * n
    · have hn : 0 < n := by
        rcases Nat.eq_zero_or_pos n with rfl | h
        · simp at hp
        · exact h
      have hrow : p / n < n := (Nat.div_lt_iff_lt_mul hn).mpr hp
      have hcol : p % n < n := Nat.mod_lt _ hn
      have hb1 : n - 1 - p / n < n :=
        lt_of_le_of_lt (Nat.sub_le _ _) (Nat.sub_lt hn Nat.one_pos)
      have hss : n - 1 - (n - 1 - p / n) = p / n :=
        Nat.sub_sub_self (Nat.le_sub_one_of_lt hrow)
      conv_lhs => rw [drawnContent]
      rw [if_pos hp]
      simp only [srcIndex_CCW90, hmidlen]
      have hidx1 : p % n * n + (n - 1 - p / n) < n * n := pack_lt hcol hb1
      rw [if_pos hidx1, getD_map_range _ _ hidx1]
      have hstep : drawnContent ImageTransform.CW90 n n src bg1
          (p % n * n + (n - 1 - p / n)) = src.getD (p / n * n + p % n) 0 := by
        rw [hCW hcol hb1, hss]
      rw [hstep]
      unfold drawnContent
      rw [if_pos hp]
      simp only [srcIndex_NONE]
      rw [if_pos (by rw [hlen]; exact pack_lt hrow hcol)]
    · unfold drawnContent
      rw [if_neg hp, if_neg hp]
  · intro fb x y row col hr hc hgx hgy
    have hn : 0 < n := by omega
    have hidx : srcIndex ImageTransform.CW90 n n row col < src.length := by
      rw [hlen, srcIndex_CW90]
      exact pack_lt (by omega) hr
    rw [draw_image_pixel fb x y n n src ImageTransform.CW90 hr hc hgx hgy,
      if_pos hidx, hCW hr hc, srcIndex_CW90]

/-- Witness for C5 (amended) at a concrete 1 x 1 image. -/
theorem rotation_roundtrip_identity_witness :
    drawnContent ImageTransform.CCW90 1 1
        ((List.range (1 * 1)).map (drawnContent ImageTransform.CW90 1 1 [3]
          (fun _ => 0))) (fun _ => 0) 0 =
      drawnContent ImageTransform.NONE 1 1 [3] (fun _ => 0) 0 :=
  (rotation_roundtrip_identity_on_squares 1 [3] (fun _ => 0) (fun _ => 0)
    (by decide)).1 0

/-- Counterexample to C5 as stated: for the non-square 2 x 1 image `[5, 7]`,
blitting with CW90 and reading the destination content back, then blitting
that content with CCW90, does not reproduce the content of an untransformed
blit — cell 0 holds the stale background value instead of pixel `5`. -/
theorem rotation_roundtrip_counterexample :
    drawnContent ImageTransform.CCW90 2 1
        ((List.range (2 * 1)).map (drawnContent ImageTransform.CW90 2 1 [5, 7]
          (fun _ => 0))) (fun _ => 0) 0 ≠
      drawnContent ImageTransform.NONE 2 1 [5, 7] (fun _ => 0) 0 := by
  decide

/-! ## C9: text layout of write_string -/

/-- C9 (amended: the source wraps when the next glyph would reach or exceed
the logical width, i.e. on `x + font.width >= GAME_WIDTH`, so a glyph that
would end exactly at the right edge already wraps; likewise it stops when the
wrapped line would reach or exceed the logical height, i.e. on
`y + 2 * font.height >= GAME_HEIGHT`).  One layout step: place the glyph and
advance `x` by the font width; or wrap to `x = 0`, advance `y` by the font
height, stop everything at the height limit, and skip a space immediately
after the wrap. -/
theorem write_string_layout_steps (font : Font) (ch : ℕ) (rest : List ℕ)
    (x y : ℕ) (hx : x + font.width < 65536)
    (hy : y + 2 * font.height < 65536) :
    (x + font.width < GAME_WIDTH →
       writeStringLayout font (ch :: rest) x y =
         (x, y, ch) :: writeStringLayout font rest (x + font.width) y) ∧
    (GAME_WIDTH ≤ x + font.width → GAME_HEIGHT ≤ y + 2 * font.height →
       writeStringLayout font (ch :: rest) x y = []) ∧
    (GAME_WIDTH ≤ x + font.width → y + 2 * font.height < GAME_HEIGHT →
       ch = 32 →
       writeStringLayout font (ch :: rest) x y =
         writeStringLayout font rest 0 (y + font.height)) ∧
    (GAME_WIDTH ≤ x + font.width → y + 2 * font.height < GAME_HEIGHT →
       ch ≠ 32 →
       writeStringLayout font (ch :: rest) x y =
         (0, y + font.height, ch) ::
           writeStringLayout font rest font.width (y + font.height)) := by
  have hw1 : wrap16 (x + font.width) = x + font.width := wrap16_eq_of_lt hx
  have hy1 : wrap16 (y + font.height) = y + font.height :=
    wrap16_eq_of_lt (by omega)
  have hy2 : wrap16 (y + font.height + font.height) =
      y + font.height + font.height := wrap16_eq_of_lt (by omega)
  have hw0 : wrap16 (0 + font.width) = font.width := by
    rw [Nat.zero_add]
    exact wrap16_eq_of_lt (by omega)
  refine ⟨?_, ?_, ?_, ?_⟩
  · intro h1
    simp only [writeStringLayout, hw1, if_neg (by omega : ¬ GAME_WIDTH ≤ x + font.width)]
  · intro h1 h2
    simp only [writeStringLayout, hw1, if_pos h1, hy1, hy2,
      if_pos (by omega : GAME_HEIGHT ≤ y + font.height + font.height)]
  · intro h1 h2 h3
    simp only [writeStringLayout, hw1, if_pos h1, hy1, hy2,
      if_neg (by omega : ¬ GAME_HEIGHT ≤ y + font.height + font.height),
      if_pos h3]
  · intro h1 h2 h3
    simp only [writeStringLayout, hw1, if_pos h1, hy1, hy2,
      if_neg (by omega : ¬ GAME_HEIGHT ≤ y + font.height + font.height),
      if_neg h3, hw0]

/-- Witness for C9 (amended) at a concrete glyph placement. -/
theorem write_string_layout_steps_witness :
    writeStringLayout ⟨16, 26, []⟩ [65] 0 0 =
      (0, 0, 65) :: writeStringLayout ⟨16, 26, []⟩ [] 16 0 :=
  (write_string_layout_steps ⟨16, 26, []⟩ 65 [] 0 0 (by decide) (by decide)).1
    (by decide)

/-- Counterexample to C9 as stated: at `x = 304` with a 16-pixel-wide font
the next glyph would end exactly at `GAME_WIDTH` (304 + 16 = 320, it does not
exceed the logical width), yet `write_string` wraps it to the next line
instead of placing it at `(304, 0)`. -/
theorem write_string_wraps_at_exact_fit_counterexample :
    writeStringLayout ⟨16, 26, []⟩ [65] 304 0 = [(0, 26, 65)] ∧
    304 + 16 ≤ GAME_WIDTH ∧
    writeStringLayout ⟨16, 26, []⟩ [65] 304 0 ≠ [(304, 0, 65)] := by
  decide

/-! ## C10: write_char tests bits LSB-first and falls back to a solid row -/

/-- C10: for every font, `write_char` colors the pixel at column `j`, row `i`
of the glyph cell with the foreground color exactly when bit `j` (LSB first)
of the row word is set; the row word is the font row
`font.data[(ch - 32) * font.height + i]` only for printable ASCII `ch` with
an in-range row index, and the solid word `0xFFFF` otherwise — so for any
character outside `32..=126` (or a row index past the end of the font data)
the whole cell is drawn in the foreground color rather than skipped. -/
theorem write_char_lsb_first_with_fallback (font : Font) (fb : FB)
    (x y ch color bg i j : ℕ) (_hch : ch < 256)
    (hi : i < font.height) (hj : j < font.width)
    (hgx : x + j < GAME_WIDTH) (hgy : y + i < GAME_HEIGHT) :
    write_char fb x y ch font color bg (fbIndex (x + j) (y + i)) =
      rgb565_to_argb8888
        (if (if 32 ≤ ch ∧ ch ≤ 126 then
              font.data.getD ((ch + 224) % 256 * font.height + i) 0xFFFF
            else 0xFFFF) &&& (1 <<< j) ≠ 0 then color else bg) ∧
    (¬ (32 ≤ ch ∧ ch ≤ 126) → j < 16 →
      write_char fb x y ch font color bg (fbIndex (x + j) (y + i)) =
        rgb565_to_argb8888 color) := by
  have hword : (if 32 ≤ ch ∧ ch ≤ 126 then
      font.data.getD ((ch + 224) % 256 * font.height + i) 0xFFFF
    else 0xFFFF) = charRowWord ch font i := by
    unfold charRowWord
    by_cases h1 : 32 ≤ ch ∧ ch ≤ 126
    · rw [if_pos h1]
      by_cases h2 : (ch + 224) % 256 * font.height + i < font.data.length
      · rw [if_pos ⟨h1.1, h1.2, h2⟩, List.getD_eq_getElem?_getD,
          List.getD_eq_getElem?_getD, List.getElem?_eq_getElem h2]
        rfl
      · rw [if_neg (by tauto), List.getD_eq_getElem?_getD,
          List.getElem?_eq_none (by omega)]
        rfl
    · rw [if_neg h1, if_neg (by tauto)]
  have hpix : write_char fb x y ch font color bg (fbIndex (x + j) (y + i)) =
      rgb565_to_argb8888
        (if charRowWord ch font i &&& (1 <<< j) ≠ 0 then color else bg) := by
    apply applyWrites_apply_of_written
    · rintro wv hwv hwvi
      rcases mem_writeCharWrites.mp hwv with ⟨i', j', hi', hj', hgx', hgy', rfl⟩
      obtain ⟨e1, e2⟩ := fbIndex_inj hgx' hgy' hgx hgy hwvi
      have hjj : j' = j := by omega
      have hii : i' = i := by omega
      rw [hjj, hii]
    · exact ⟨_, mem_writeCharWrites.mpr ⟨i, j, hi, hj, hgx, hgy, rfl⟩, rfl⟩
  refine ⟨by rw [hpix, hword], ?_⟩
  intro hout hj16
  rw [hpix]
  have hcw : charRowWord ch font i = 0xFFFF := by
    unfold charRowWord
    rw [if_neg (by tauto)]
  rw [hcw]
  have hbit : (0xFFFF : ℕ) &&& (1 <<< j) ≠ 0 := by
    interval_cases j <;> decide
  rw [if_pos hbit]

/-- Witness for C10: the solid fallback paints the foreground color for a
character whose computed row index is past the end of the font data. -/
theorem write_char_lsb_first_with_fallback_witness :
    write_char fbZero 0 0 65 ⟨1, 1, [1]⟩ 9 4 (fbIndex 0 0) =
      rgb565_to_argb8888 9 := by
  rw [(write_char_lsb_first_with_fallback ⟨1, 1, [1]⟩ fbZero 0 0 65 9 4 0 0
    (by decide) (by decide) (by decide) (by decide) (by decide)).1]
  decide

end FlappyLcd
